import Mathlib

/-!
Shallow embedding of the event-subscription utility of salve-dom
(`src/build/dist/lib/event_emitter.js`) together with the observer-surface
declarations of `src/build/dist/lib/event_emitter.d.ts` (the `Events`
interface and the `WorkingState` enumeration).

Modelling decisions:
* JS listener functions are object references compared by identity
  (`Array.prototype.lastIndexOf` in `removeEventListener`); we model them
  as numeric ids (`ListenerId`).
* The `_eventListeners` object (`Object.create(null)`) is a string-keyed
  map of arrays, modelled as a first-key-wins association list.
* Event payloads are opaque to the emitter; we fix a concrete carrier.
* A listener's body may call back into the emitter (add / remove /
  removeAll / nested `_emit`) and finally return `boolean | void`.  Bodies
  are deep-embedded as `Prog` values and an environment maps each listener
  id to its body.  `_emit` is indexed by a fuel bounding the depth of
  nested emissions (JS has no such bound; a run that exhausts the fuel
  silently skips the nested emission, which only removes invocations).
* The `_trace` field of the class only drives console logging and is
  omitted.
-/

/-- Event payloads are opaque to the emitter; a concrete carrier suffices. -/
abbrev Payload := Nat

/-- Listener identity (JS function reference). -/
abbrev ListenerId := Nat

/-- The mutable fields of `EventEmitter`: `_eventListeners` and
`_generalListeners`. -/
structure EmitterState where
  eventListeners : List (String × List ListenerId)
  generalListeners : List ListenerId
deriving DecidableEq, Repr

/-- `new EventEmitter()`: `_eventListeners = Object.create(null)`,
`_generalListeners = []`. -/
def emptyEmitter : EmitterState := ⟨[], []⟩

/-- Property read `m[k]` on the `_eventListeners` object (`undefined`
becomes `none`). -/
def alookup : List (String × List ListenerId) → String → Option (List ListenerId)
  | [], _ => none
  | (k, v) :: rest, e => if k = e then some v else alookup rest e

/-- Property write `m[k] = v` on the `_eventListeners` object. -/
def aset : List (String × List ListenerId) → String → List ListenerId →
    List (String × List ListenerId)
  | [], e, v => [(e, v)]
  | (k, w) :: rest, e, v => if k = e then (e, v) :: rest else (k, w) :: aset rest e v

/-- `Array.prototype.lastIndexOf`, with `none` for `-1`. -/
def lastIndexOf : List ListenerId → ListenerId → Option Nat
  | [], _ => none
  | x :: xs, l =>
    match lastIndexOf xs l with
    | some i => some (i + 1)
    | none => if x = l then some 0 else none

/-- `EventEmitter.addEventListener` (lines 39-50 of the source): push on the
general list for `"*"`, otherwise create-if-absent then push on the
name-keyed list. -/
def addEventListener (s : EmitterState) (eventName : String) (l : ListenerId) :
    EmitterState :=
  if eventName = "*" then
    { s with generalListeners := s.generalListeners ++ [l] }
  else
    match alookup s.eventListeners eventName with
    | none => { s with eventListeners := aset s.eventListeners eventName [l] }
    | some listeners =>
        { s with eventListeners := aset s.eventListeners eventName (listeners ++ [l]) }

/-- `EventEmitter.removeEventListener` (lines 61-72): pick the list
(`_generalListeners` for `"*"`, otherwise the name-keyed entry), return if
`undefined`, then `lastIndexOf` and `splice(index, 1)` when found. -/
def removeEventListener (s : EmitterState) (eventName : String) (l : ListenerId) :
    EmitterState :=
  if eventName = "*" then
    match lastIndexOf s.generalListeners l with
    | none => s
    | some i => { s with generalListeners := s.generalListeners.eraseIdx i }
  else
    match alookup s.eventListeners eventName with
    | none => s
    | some listeners =>
        match lastIndexOf listeners l with
        | none => s
        | some i =>
            { s with eventListeners := aset s.eventListeners eventName (listeners.eraseIdx i) }

/-- `EventEmitter.removeAllListeners` (lines 78-85): `_generalListeners = []`
for `"*"`, otherwise `_eventListeners[eventName] = []` (which creates the
entry when absent, exactly as the JS assignment does). -/
def removeAllListeners (s : EmitterState) (eventName : String) : EmitterState :=
  if eventName = "*" then { s with generalListeners := [] }
  else { s with eventListeners := aset s.eventListeners eventName [] }

/-- The observable listener list of an event (the wildcard list for `"*"`,
otherwise the name-keyed entry, with a missing entry read as empty). -/
def listenersOf (s : EmitterState) (eventName : String) : List ListenerId :=
  if eventName = "*" then s.generalListeners
  else (alookup s.eventListeners eventName).getD []

/-- Deep embedding of a listener body: a sequence of emitter calls ending in
a returned value (`some b` for a returned boolean, `none` for `void`). -/
inductive Prog where
  | ret (v : Option Bool)
  | add (eventName : String) (l : ListenerId) (k : Prog)
  | remove (eventName : String) (l : ListenerId) (k : Prog)
  | removeAll (eventName : String) (k : Prog)
  | emit (eventName : String) (ev : Payload) (k : Prog)
deriving DecidableEq, Repr

/-- A body that performs no nested `_emit`. -/
def Prog.emitFree : Prog → Bool
  | .ret _ => true
  | .add _ _ k => k.emitFree
  | .remove _ _ k => k.emitFree
  | .removeAll _ k => k.emitFree
  | .emit _ _ _ => false

/-- Maps each listener id to its body; the body may depend on the
dispatched event name and payload (JS passes `(name, ev)` to wildcard
listeners and `ev` to name-keyed ones; giving every body access to both is
a conservative generalisation). -/
abbrev Env := ListenerId → String → Payload → Prog

/-- One recorded listener call: who was called, from which list (wildcard
or name-keyed), with which event name and payload, and what it returned. -/
structure Invocation where
  listener : ListenerId
  general : Bool
  name : String
  payload : Payload
  ret : Option Bool
deriving DecidableEq, Repr

/-- The phase-independent part of an invocation record. -/
def invKey (inv : Invocation) : ListenerId × Bool × String × Payload :=
  (inv.listener, inv.general, inv.name, inv.payload)

/-- Semantics of nested `_emit` calls, abstracted so that the interpreter
for bodies is structurally recursive. -/
abbrev EmitOracle := EmitterState → String → Payload → EmitterState × List Invocation

/-- Runs a listener body: each emitter call updates the state as the
corresponding source method does; a nested `_emit` is delegated to the
oracle.  Returns the final state, the invocations performed by nested
dispatches, and the body's returned value. -/
def runProg (nested : EmitOracle) : EmitterState → Prog →
    EmitterState × List Invocation × Option Bool
  | s, .ret v => (s, [], v)
  | s, .add e l k => runProg nested (addEventListener s e l) k
  | s, .remove e l k => runProg nested (removeEventListener s e l) k
  | s, .removeAll e k => runProg nested (removeAllListeners s e) k
  | s, .emit e p k =>
      let r := nested s e p
      let r2 := runProg nested r.1 k
      (r2.1, r.2 ++ r2.2.1, r2.2.2)

/-- The `for (const listener of listeners)` loop of `_emit` over a
snapshot (`listeners.slice()`): call each listener in order, record the
invocation, and stop (third component `true`) as soon as a call returns
`false` (`if (ret === false) { return; }`). -/
def runList (env : Env) (nested : EmitOracle) (general : Bool) (name : String)
    (p : Payload) : EmitterState → List ListenerId →
    EmitterState × List Invocation × Bool
  | s, [] => (s, [], false)
  | s, l :: rest =>
      let r := runProg nested s (env l name p)
      let inv : Invocation := ⟨l, general, name, p, r.2.2⟩
      if r.2.2 = some false then (r.1, inv :: r.2.1, true)
      else
        let r2 := runList env nested general name p r.1 rest
        (r2.1, (inv :: r.2.1) ++ r2.2.1, r2.2.2)

/-- `EventEmitter._emit` (lines 95-128).  Block 1 snapshots
`_generalListeners` (if non-empty) and runs it, returning early on the
halt sentinel; block 2 then reads `_eventListeners[eventName]` from the
state *as left by block 1*, snapshots it (if defined and non-empty) and
runs it.  The fuel bounds the depth of nested emissions performed by
listener bodies. -/
def emitDispatch (env : Env) : Nat → EmitterState → String → Payload →
    EmitterState × List Invocation
  | 0, s, _, _ => (s, [])
  | fuel + 1, s, eventName, ev =>
      let nested := emitDispatch env fuel
      let r1 :=
        if s.generalListeners.length > 0 then
          runList env nested true eventName ev s s.generalListeners
        else (s, [], false)
      if r1.2.2 then (r1.1, r1.2.1)
      else
        match alookup r1.1.eventListeners eventName with
        | none => (r1.1, r1.2.1)
        | some listeners =>
            if listeners.length > 0 then
              let r2 := runList env nested false eventName ev r1.1 listeners
              (r2.1, r1.2.1 ++ r2.2.1)
            else (r1.1, r1.2.1)

/-- State effect of `EventEmitter.addOneTimeEventListener` (lines 51-60):
the freshly allocated wrapper closure `me` is registered with
`addEventListener`.  The caller supplies the wrapper's id `w`; the
wrapper's body is `oneTimeBody`. -/
def addOneTimeEventListener (s : EmitterState) (eventName : String)
    (w : ListenerId) : EmitterState :=
  addEventListener s eventName w

/-- Body of the wrapper `me` created by `addOneTimeEventListener`:
`this.removeEventListener(eventName, me); return listener.apply(this, args);`
— remove the wrapper itself, then run the wrapped listener's body and
return its value. -/
def oneTimeBody (eventName : String) (w : ListenerId) (body : Prog) : Prog :=
  Prog.remove eventName w body

/-! ### Observer-surface declarations (`event_emitter.d.ts` companion file) -/

/-- JS `number` (used only as an opaque payload field type). -/
def JSNumber : Type := Float

/-- `ValidationError`, imported from the external `salve` grammar engine;
opaque to this repository's emitter surface. -/
structure ValidationError where
  id : Nat
deriving DecidableEq, Repr

/-- An external DOM node; only its identity matters here. -/
structure DomNode where
  id : Nat
deriving DecidableEq, Repr

/-- `WorkingState` enumeration of the declaration file. -/
inductive WorkingState where
  | INCOMPLETE
  | WORKING
  | INVALID
  | VALID
deriving DecidableEq, Repr

/-- The numeric values assigned by the TypeScript `enum` declaration. -/
def WorkingState.toNat : WorkingState → Nat
  | .INCOMPLETE => 1
  | .WORKING => 2
  | .INVALID => 3
  | .VALID => 4

/-- `ErrorData { error, node?, index? }`; `node?: Node | null` is an
optional field whose value may itself be null. -/
structure ErrorData where
  error : ValidationError
  node : Option (Option DomNode)
  index : Option JSNumber

/-- `ResetData { at: number }` (`at` is a Lean keyword, hence the quoted
field name). -/
structure ResetData where
  «at» : JSNumber

/-- `WorkingStateData { state, partDone }`. -/
structure WorkingStateData where
  state : WorkingState
  partDone : JSNumber

/-- The event names of the `Events` interface. -/
inductive EventName where
  | error
  | resetErrors
  | stateUpdate
  | possibleDueToWildcardChange
deriving DecidableEq, Repr

/-- The literal string key of each event of the `Events` interface. -/
def EventName.toString : EventName → String
  | .error => "error"
  | .resetErrors => "reset-errors"
  | .stateUpdate => "state-update"
  | .possibleDueToWildcardChange => "possible-due-to-wildcard-change"

/-- The `Events` interface: payload type of each event. -/
def Events : EventName → Type
  | .error => ErrorData
  | .resetErrors => ResetData
  | .stateUpdate => WorkingStateData
  | .possibleDueToWildcardChange => DomNode

/-! ### Concrete scenarios used by counterexamples and witnesses -/

/-- Scenario: listener `0` (a wildcard listener) adds listener `1` to event
`"e"` during dispatch; listener `1` does nothing. -/
def envAddDuring : Env := fun l _ _ =>
  if l = 0 then .add "e" 1 (.ret none) else .ret none

/-- Emitter with only the wildcard listener `0` registered. -/
def sAddDuring : EmitterState := addEventListener emptyEmitter "*" 0

/-- Scenario: listener `0` removes both of its own registrations on `"e"`
during its first call; every other listener does nothing. -/
def envSelfRemove : Env := fun l _ _ =>
  if l = 0 then .remove "e" 0 (.remove "e" 0 (.ret none)) else .ret none

/-- Emitter with listener `0` registered twice on `"e"`. -/
def sSelfRemove : EmitterState :=
  addEventListener (addEventListener emptyEmitter "e" 0) "e" 0

/-- Scenario: listener `0` removes itself from `"e"` and then re-emits
`"e"`; listener `1` is the one-time wrapper around a listener that does
nothing. -/
def envNestedEmit : Env := fun l _ _ =>
  if l = 0 then .remove "e" 0 (.emit "e" 7 (.ret none))
  else if l = 1 then oneTimeBody "e" 1 (.ret none)
  else .ret none

/-- Emitter with listener `0` registered on `"e"` followed by the one-time
wrapper `1` registered by `addOneTimeEventListener`. -/
def sNestedEmit : EmitterState :=
  addOneTimeEventListener (addEventListener emptyEmitter "e" 0) "e" 1

/-- A do-nothing environment: every listener body returns `undefined`. -/
def envInert : Env := fun _ _ _ => Prog.ret none

/-- An environment in which every listener returns the halt sentinel. -/
def envHalt : Env := fun _ _ _ => Prog.ret (some false)

/-- Emitter with wildcard listener `3` and listener `4` on `"x"`. -/
def sSmall : EmitterState :=
  addEventListener (addEventListener emptyEmitter "*" 3) "x" 4

/-! ### Interpreter lemmas -/

/-- A body that performs no nested `_emit` contributes no invocation
records of its own. -/
theorem runProg_emitFree_trace (nested : EmitOracle) :
    ∀ (prog : Prog), prog.emitFree = true → ∀ s : EmitterState,
      (runProg nested s prog).2.1 = [] := by
  intro prog
  induction prog with
  | ret v => intro _ s; rfl
  | add e l k ih => intro hk s; exact ih hk (addEventListener s e l)
  | remove e l k ih => intro hk s; exact ih hk (removeEventListener s e l)
  | removeAll e k ih => intro hk s; exact ih hk (removeAllListeners s e)
  | emit e p k ih => intro hk s; simp [Prog.emitFree] at hk

/-- Listeners whose bodies are bare returns do not change the emitter
state. -/
theorem runList_state_pure (env : Env) (nested : EmitOracle) (g : Bool)
    (n : String) (p : Payload) (hPure : ∀ l, ∃ v, env l n p = Prog.ret v) :
    ∀ (ls : List ListenerId) (s : EmitterState),
      (runList env nested g n p s ls).1 = s := by
  intro ls
  induction ls with
  | nil => intro s; rfl
  | cons l rest ih =>
      intro s
      obtain ⟨v, hv⟩ := hPure l
      by_cases hfalse : v = some false
      · simp [runList, hv, runProg, hfalse]
      · simp [runList, hv, runProg, hfalse, ih]

/-- Behaviour of one snapshot loop under emit-free bodies: the invocations
are exactly a prefix of the snapshot, in order, all carrying the dispatch's
phase, name and payload; only the very last invocation can have returned
the halt sentinel; the loop halts exactly when it did, and otherwise the
whole snapshot was served. -/
theorem runList_spec (env : Env) (nested : EmitOracle) (g : Bool) (n : String)
    (p : Payload) (hEnv : ∀ l, (env l n p).emitFree = true) :
    ∀ (ls : List ListenerId) (s s' : EmitterState) (tr : List Invocation) (h : Bool),
      runList env nested g n p s ls = (s', tr, h) →
      ∃ m, m ≤ ls.length ∧
        tr.map invKey = (ls.take m).map (fun l => (l, g, n, p)) ∧
        (∀ inv ∈ tr.dropLast, inv.ret ≠ some false) ∧
        (h = true → ∃ last, tr.getLast? = some last ∧ last.ret = some false) ∧
        (h = false → m = ls.length ∧ ∀ inv ∈ tr, inv.ret ≠ some false) := by
  intro ls
  induction ls with
  | nil =>
      intro s s' tr h heq
      simp only [runList] at heq
      injection heq with h1 h23
      injection h23 with h2 h3
      subst h1; subst h2; subst h3
      exact ⟨0, by simp, by simp, by simp, by simp, by simp⟩
  | cons l rest ih =>
      intro s s' tr h heq
      have hbody := runProg_emitFree_trace nested (env l n p) (hEnv l) s
      simp only [runList] at heq
      rcases hr : runProg nested s (env l n p) with ⟨s1, trb, v⟩
      rw [hr] at heq hbody
      simp only at hbody
      subst hbody
      by_cases hv : v = some false
      · rw [if_pos (by simp [hv])] at heq
        injection heq with h1 h23
        injection h23 with h2 h3
        subst h1; subst h2; subst h3
        refine ⟨1, by simp, by simp [invKey, hv], by simp, ?_, by simp⟩
        intro _
        exact ⟨⟨l, g, n, p, v⟩, by simp, by simp [hv]⟩
      · rw [if_neg (by simp [hv])] at heq
        rcases hrest : runList env nested g n p s1 rest with ⟨s2, tr2, h2⟩
        rw [hrest] at heq
        simp only [List.singleton_append] at heq
        injection heq with h1 h23
        injection h23 with h2eq h3
        subst h1; subst h2eq; subst h3
        obtain ⟨m', hm', hmap', hdrop', htrue', hfalse'⟩ := ih s1 s2 tr2 h2 hrest
        refine ⟨m' + 1, by simpa using hm', ?_, ?_, ?_, ?_⟩
        · simp [invKey, hmap', List.take_succ_cons]
        · intro inv hinv
          cases tr2 with
          | nil => simp at hinv
          | cons y ys =>
              simp only [List.dropLast_cons₂, List.mem_cons] at hinv
              rcases hinv with rfl | hinv
              · simpa using hv
              · exact hdrop' inv (by simpa using hinv)
        · intro hh
          obtain ⟨last, hlast, hlret⟩ := htrue' hh
          cases tr2 with
          | nil => simp at hlast
          | cons y ys => exact ⟨last, by simpa [List.getLast?_cons_cons] using hlast, hlret⟩
        · intro hh
          obtain ⟨hlen, hall⟩ := hfalse' hh
          refine ⟨by simp [hlen], ?_⟩
          intro inv hinv
          rcases List.mem_cons.mp hinv with rfl | hinv
          · simpa using hv
          · exact hall inv hinv

/-- Every invocation performed by a snapshot loop with emit-free bodies
calls a listener of the snapshot, from the loop's own phase, with the
dispatched name and payload. -/
theorem runList_mem (env : Env) (nested : EmitOracle) (g : Bool) (n : String)
    (p : Payload) (hEnv : ∀ l, (env l n p).emitFree = true)
    (ls : List ListenerId) (s s' : EmitterState) (tr : List Invocation) (h : Bool)
    (heq : runList env nested g n p s ls = (s', tr, h)) :
    ∀ inv ∈ tr, inv.listener ∈ ls ∧ inv.general = g ∧ inv.name = n ∧ inv.payload = p := by
  obtain ⟨m, _, hmap, _, _, _⟩ := runList_spec env nested g n p hEnv ls s s' tr h heq
  intro inv hinv
  have hmem : invKey inv ∈ tr.map invKey := List.mem_map_of_mem _ hinv
  rw [hmap] at hmem
  obtain ⟨l, hl, hkey⟩ := List.mem_map.mp hmem
  have hls : l ∈ ls := List.take_subset m ls hl
  simp only [invKey, Prod.mk.injEq] at hkey
  obtain ⟨h1, h2, h3, h4⟩ := hkey
  exact ⟨h1 ▸ hls, h2.symm, h3.symm, h4.symm⟩

/-- `_emit` with the empty-list guards and the `undefined` check collapsed
away: the dispatch is the general-phase loop over the dispatch-time
wildcard snapshot followed, unless it halted, by the name-keyed loop over
the event's list as read from the state the general phase left behind. -/
theorem emitDispatch_succ_eq (env : Env) (fuel : Nat) (s : EmitterState)
    (eventName : String) (ev : Payload) (s1 s2 : EmitterState)
    (tr1 tr2 : List Invocation) (h1 h2 : Bool)
    (hG : runList env (emitDispatch env fuel) true eventName ev s s.generalListeners
            = (s1, tr1, h1))
    (hN : runList env (emitDispatch env fuel) false eventName ev s1
            ((alookup s1.eventListeners eventName).getD []) = (s2, tr2, h2)) :
    emitDispatch env (fuel + 1) s eventName ev
      = if h1 then (s1, tr1) else (s2, tr1 ++ tr2) := by
  have hguard :
      (if s.generalListeners.length > 0 then
        runList env (emitDispatch env fuel) true eventName ev s s.generalListeners
       else (s, [], false))
        = runList env (emitDispatch env fuel) true eventName ev s s.generalListeners := by
    cases hgl : s.generalListeners with
    | nil => simp [runList]
    | cons a l => simp
  simp only [emitDispatch]
  rw [hguard, hG]
  cases h1 with
  | true => simp
  | false =>
      simp only [Bool.false_eq_true, if_false]
      split
      · next halk =>
          rw [halk] at hN
          simp only [Option.getD_none, runList] at hN
          injection hN with e1 e23
          injection e23 with e2 e3
          subst e1; subst e2
          simp
      · next ls halk =>
          rw [halk] at hN
          simp only [Option.getD_some] at hN
          cases ls with
          | nil =>
              simp only [runList] at hN
              injection hN with e1 e23
              injection e23 with e2 e3
              subst e1; subst e2
              simp
          | cons a l =>
              simp only [List.length_cons, gt_iff_lt, Nat.succ_pos, if_true]
              rw [hN]

/-- A member of `(l₁ ++ l₂).dropLast` lies in `l₁` or in `l₂.dropLast`. -/
theorem mem_dropLast_append {α : Type} (l1 l2 : List α) (x : α)
    (h : x ∈ (l1 ++ l2).dropLast) : x ∈ l1 ∨ x ∈ l2.dropLast := by
  cases l2 with
  | nil =>
      left
      rw [List.append_nil] at h
      exact List.dropLast_subset l1 h
  | cons y ys =>
      rw [List.dropLast_append_cons] at h
      exact List.mem_append.mp h

/-- Writing a key and reading it back. -/
theorem alookup_aset_self :
    ∀ (m : List (String × List ListenerId)) (e : String) (v : List ListenerId),
      alookup (aset m e v) e = some v := by
  intro m e v
  induction m with
  | nil => simp [aset, alookup]
  | cons kv rest ih =>
      obtain ⟨k, w⟩ := kv
      by_cases hk : k = e
      · simp [aset, hk, alookup]
      · simp [aset, hk, alookup, ih]

/-- Writing one key leaves every other key's entry unchanged. -/
theorem alookup_aset_ne :
    ∀ (m : List (String × List ListenerId)) (e k' : String) (v : List ListenerId),
      k' ≠ e → alookup (aset m e v) k' = alookup m k' := by
  intro m e k' v hne
  induction m with
  | nil => simp [aset, alookup, Ne.symm hne]
  | cons kv rest ih =>
      obtain ⟨k, w⟩ := kv
      by_cases hk : k = e
      · subst hk
        simp [aset, alookup, Ne.symm hne]
      · simp [aset, hk, alookup, ih]

/-- `lastIndexOf` returns `-1` exactly when the element is absent. -/
theorem lastIndexOf_none :
    ∀ (ls : List ListenerId) (l : ListenerId),
      lastIndexOf ls l = none → l ∉ ls := by
  intro ls
  induction ls with
  | nil => intro l _; simp
  | cons x xs ih =>
      intro l h
      simp only [lastIndexOf] at h
      rcases hx : lastIndexOf xs l with _ | i
      · rw [hx] at h
        by_cases hxl : x = l
        · rw [if_pos hxl] at h; cases h
        · intro hmem
          rcases List.mem_cons.mp hmem with rfl | hmem
          · exact hxl rfl
          · exact ih l hx hmem
      · rw [hx] at h; cases h

/-- When `lastIndexOf` finds an index, the list splits around the *last*
occurrence of the element, and `splice(index, 1)` deletes exactly that
occurrence. -/
theorem lastIndexOf_some :
    ∀ (ls : List ListenerId) (l : ListenerId) (i : Nat),
      lastIndexOf ls l = some i →
      ∃ a b, ls = a ++ l :: b ∧ l ∉ b ∧ a.length = i ∧ ls.eraseIdx i = a ++ b := by
  intro ls
  induction ls with
  | nil => intro l i h; simp [lastIndexOf] at h
  | cons x xs ih =>
      intro l i h
      simp only [lastIndexOf] at h
      rcases hx : lastIndexOf xs l with _ | j
      · rw [hx] at h
        by_cases hxl : x = l
        · rw [if_pos hxl] at h
          injection h with hi
          subst hxl
          refine ⟨[], xs, by simp, lastIndexOf_none xs x hx, by simp [← hi], ?_⟩
          simp [← hi, List.eraseIdx]
        · rw [if_neg hxl] at h; cases h
      · rw [hx] at h
        injection h with hi
        obtain ⟨a, b, hsplit, hnb, hlen, herase⟩ := ih l j hx
        refine ⟨x :: a, b, by simp [hsplit], hnb, by simp [hlen, hi], ?_⟩
        subst hi
        simp [List.eraseIdx_cons_succ, herase]

/-! ### Claim theorems -/

/-- C6: The observer surface consists of exactly the four event names
`error`, `reset-errors`, `state-update`, `possible-due-to-wildcard-change`,
whose payload types are respectively `ErrorData`, `ResetData`,
`WorkingStateData` and the affected node. -/
theorem events_interface_surface :
    (∀ e : EventName,
        EventName.toString e ∈
          ["error", "reset-errors", "state-update",
           "possible-due-to-wildcard-change"]) ∧
    Function.Injective EventName.toString ∧
    Events .error = ErrorData ∧
    Events .resetErrors = ResetData ∧
    Events .stateUpdate = WorkingStateData ∧
    Events .possibleDueToWildcardChange = DomNode := by
  refine ⟨?_, ?_, rfl, rfl, rfl, rfl⟩
  · intro e; cases e <;> simp [EventName.toString]
  · intro a b hab
    cases a <;> cases b <;> first
      | rfl
      | exact absurd hab (by simp [EventName.toString])

/-- C6 witness: the theorem evaluated at the `error` event. -/
theorem events_interface_surface_witness : Events .error = ErrorData :=
  events_interface_surface.2.2.1

/-- C7: `WorkingState` has exactly the members INCOMPLETE, WORKING,
INVALID, VALID with the numeric values 1, 2, 3, 4. -/
theorem workingState_enum_values :
    (∀ w : WorkingState,
        w = .INCOMPLETE ∨ w = .WORKING ∨ w = .INVALID ∨ w = .VALID) ∧
    WorkingState.toNat .INCOMPLETE = 1 ∧ WorkingState.toNat .WORKING = 2 ∧
    WorkingState.toNat .INVALID = 3 ∧ WorkingState.toNat .VALID = 4 ∧
    Function.Injective WorkingState.toNat := by
  refine ⟨?_, rfl, rfl, rfl, rfl, ?_⟩
  · intro w; cases w <;> simp
  · intro a b hab
    cases a <;> cases b <;> first
      | rfl
      | exact absurd hab (by simp [WorkingState.toNat])

/-- C7 witness: the theorem evaluated at `INCOMPLETE`. -/
theorem workingState_enum_values_witness : WorkingState.toNat .INCOMPLETE = 1 :=
  workingState_enum_values.2.1

/-- C9: `removeAllListeners(E)` empties exactly the listener list of `E`
(the wildcard list when `E = "*"`) and leaves every other event's list,
and the wildcard list, unchanged. -/
theorem removeAllListeners_frame (s : EmitterState) (E : String) :
    listenersOf (removeAllListeners s E) E = [] ∧
    ∀ E', E' ≠ E → listenersOf (removeAllListeners s E) E' = listenersOf s E' := by
  constructor
  · by_cases hE : E = "*"
    · simp [removeAllListeners, listenersOf, hE]
    · simp [removeAllListeners, listenersOf, hE, alookup_aset_self]
  · intro E' hne
    by_cases hE : E = "*"
    · subst hE
      simp [removeAllListeners, listenersOf, hne]
    · by_cases hE' : E' = "*"
      · subst hE'
        simp [removeAllListeners, listenersOf, hE]
      · simp [removeAllListeners, listenersOf, hE, hE',
          alookup_aset_ne s.eventListeners E E' [] hne]

/-- C9 witness: the theorem evaluated at a concrete emitter and event. -/
theorem removeAllListeners_frame_witness :
    listenersOf (removeAllListeners sSmall "x") "x" = [] ∧
    ∀ E', E' ≠ "x" →
      listenersOf (removeAllListeners sSmall "x") E' = listenersOf sSmall E' :=
  removeAllListeners_frame sSmall "x"

/-- C8: `removeEventListener(E, L)` removes exactly one registration of
`L` — the most recently added (last) occurrence — from `E`'s list (the
wildcard list when `E = "*"`), and leaves the emitter entirely unchanged
when `L` is not registered under `E` or `E` has no listener list. -/
theorem removeEventListener_spec (s : EmitterState) (E : String) (L : ListenerId) :
    (E = "*" →
      (removeEventListener s E L).eventListeners = s.eventListeners ∧
      (L ∉ s.generalListeners → removeEventListener s E L = s) ∧
      (L ∈ s.generalListeners → ∃ a b,
        s.generalListeners = a ++ L :: b ∧ L ∉ b ∧
        (removeEventListener s E L).generalListeners = a ++ b)) ∧
    (E ≠ "*" →
      (removeEventListener s E L).generalListeners = s.generalListeners ∧
      (∀ E', E' ≠ E →
        alookup (removeEventListener s E L).eventListeners E'
          = alookup s.eventListeners E') ∧
      (alookup s.eventListeners E = none → removeEventListener s E L = s) ∧
      (∀ ls, alookup s.eventListeners E = some ls →
        (L ∉ ls → removeEventListener s E L = s) ∧
        (L ∈ ls → ∃ a b, ls = a ++ L :: b ∧ L ∉ b ∧
          alookup (removeEventListener s E L).eventListeners E = some (a ++ b)))) := by
  constructor
  · intro hE
    subst hE
    rcases hli : lastIndexOf s.generalListeners L with _ | i
    · have hnotin := lastIndexOf_none _ _ hli
      refine ⟨by simp [removeEventListener, hli], fun _ => by simp [removeEventListener, hli], ?_⟩
      intro hmem
      exact absurd hmem hnotin
    · obtain ⟨a, b, hsplit, hnb, hlen, herase⟩ := lastIndexOf_some _ _ _ hli
      refine ⟨by simp [removeEventListener, hli], ?_, ?_⟩
      · intro hnot
        exact absurd (hsplit ▸ List.mem_append_right a (List.mem_cons_self L b)) hnot
      · intro _
        exact ⟨a, b, hsplit, hnb, by simp [removeEventListener, hli, herase]⟩
  · intro hE
    rcases halk : alookup s.eventListeners E with _ | ls
    · refine ⟨by simp [removeEventListener, hE, halk], ?_, fun _ => by simp [removeEventListener, hE, halk], ?_⟩
      · intro E' _
        simp [removeEventListener, hE, halk]
      · intro ls hcontra
        cases hcontra
    · rcases hli : lastIndexOf ls L with _ | i
      · have hnotin := lastIndexOf_none _ _ hli
        refine ⟨by simp [removeEventListener, hE, halk, hli], ?_, ?_, ?_⟩
        · intro E' _
          simp [removeEventListener, hE, halk, hli]
        · intro hcontra
          cases hcontra
        · intro ls' hls'
          injection hls' with hls'
          subst hls'
          exact ⟨fun _ => by simp [removeEventListener, hE, halk, hli],
            fun hmem => absurd hmem hnotin⟩
      · obtain ⟨a, b, hsplit, hnb, hlen, herase⟩ := lastIndexOf_some _ _ _ hli
        refine ⟨by simp [removeEventListener, hE, halk, hli], ?_, ?_, ?_⟩
        · intro E' hne
          simp only [removeEventListener, hE, if_false, halk, hli]
          exact alookup_aset_ne s.eventListeners E E' (ls.eraseIdx i) hne
        · intro hcontra
          cases hcontra
        · intro ls' hls'
          injection hls' with hls'
          subst hls'
          constructor
          · intro hnot
            exact absurd (hsplit ▸ List.mem_append_right a (List.mem_cons_self L b)) hnot
          · intro _
            refine ⟨a, b, hsplit, hnb, ?_⟩
            simp only [removeEventListener, hE, if_false, halk, hli]
            rw [herase]
            exact alookup_aset_self s.eventListeners E (a ++ b)

/-- C8 witness: removing listener `4` from `"x"` on the concrete emitter. -/
theorem removeEventListener_spec_witness :
    ("x" = "*" →
      (removeEventListener sSmall "x" 4).eventListeners = sSmall.eventListeners ∧
      ((4 : ListenerId) ∉ sSmall.generalListeners → removeEventListener sSmall "x" 4 = sSmall) ∧
      ((4 : ListenerId) ∈ sSmall.generalListeners → ∃ a b,
        sSmall.generalListeners = a ++ 4 :: b ∧ (4 : ListenerId) ∉ b ∧
        (removeEventListener sSmall "x" 4).generalListeners = a ++ b)) ∧
    ("x" ≠ "*" →
      (removeEventListener sSmall "x" 4).generalListeners = sSmall.generalListeners ∧
      (∀ E', E' ≠ "x" →
        alookup (removeEventListener sSmall "x" 4).eventListeners E'
          = alookup sSmall.eventListeners E') ∧
      (alookup sSmall.eventListeners "x" = none → removeEventListener sSmall "x" 4 = sSmall) ∧
      (∀ ls, alookup sSmall.eventListeners "x" = some ls →
        ((4 : ListenerId) ∉ ls → removeEventListener sSmall "x" 4 = sSmall) ∧
        ((4 : ListenerId) ∈ ls → ∃ a b, ls = a ++ 4 :: b ∧ (4 : ListenerId) ∉ b ∧
          alookup (removeEventListener sSmall "x" 4).eventListeners "x" = some (a ++ b)))) :=
  removeEventListener_spec sSmall "x" 4

/-- C10: the wrapper installed by `addOneTimeEventListener` first removes
itself and then returns the wrapped listener's return value; consequently
a listener whose call returns the halt sentinel stops the snapshot loop
exactly as any directly registered listener does. -/
theorem one_time_wrapper_forwards_return (env : Env) (nested : EmitOracle)
    (g : Bool) (n : String) (p : Payload) (e : String) (w : ListenerId)
    (body : Prog) (s s1 : EmitterState) (trb : List Invocation)
    (rest : List ListenerId) :
    runProg nested s (oneTimeBody e w body)
      = runProg nested (removeEventListener s e w) body ∧
    (runProg nested s (env w n p) = (s1, trb, some false) →
      runList env nested g n p s (w :: rest)
        = (s1, ⟨w, g, n, p, some false⟩ :: trb, true)) := by
  constructor
  · rfl
  · intro h
    simp [runList, h]

/-- C10 witness: a halting one-time wrapper at the head of a snapshot. -/
theorem one_time_wrapper_forwards_return_witness :
    runList envHalt (emitDispatch envHalt 0) false "x" 1 emptyEmitter [0, 5]
      = (emptyEmitter, [⟨0, false, "x", 1, some false⟩], true) :=
  (one_time_wrapper_forwards_return envHalt (emitDispatch envHalt 0) false "x" 1
      "e" 0 (Prog.ret (some false)) emptyEmitter emptyEmitter [] [5]).2 (by decide)

/-- C1 counterexample: listener `1` has no registration at all when the
dispatch of `"e"` starts (the name-keyed table is empty and `1` is not a
wildcard listener); the wildcard listener `0` adds it to `"e"` during the
dispatch, and `1` is nevertheless invoked with the current event, because
`_emit` reads `_eventListeners[eventName]` only after the wildcard phase. -/
theorem added_during_dispatch_invoked_cex :
    alookup sAddDuring.eventListeners "e" = none ∧
    (1 : ListenerId) ∉ sAddDuring.generalListeners ∧
    envAddDuring 0 "e" 5 = Prog.add "e" 1 (Prog.ret none) ∧
    (⟨1, false, "e", 5, none⟩ : Invocation)
      ∈ (emitDispatch envAddDuring 1 sAddDuring "e" 5).2 := by
  decide

/-- C1 (amended): every listener invoked by a dispatch lies either in the
wildcard list as snapshotted when the dispatch starts, or in the event's
name-keyed list as it stands when the name-keyed phase starts (i.e. after
the wildcard listeners ran).  Hence a listener added during the name-keyed
phase, or added to the wildcard list at any point of the dispatch, never
receives the current event — but one added to the event's name-keyed list
by a wildcard listener does. -/
theorem invoked_listener_in_phase_snapshot (env : Env) (fuel : Nat)
    (s s1 sf : EmitterState) (name : String) (p : Payload)
    (tr1 tr : List Invocation) (h1 : Bool)
    (hEnv : ∀ l, (env l name p).emitFree = true)
    (hG : runList env (emitDispatch env fuel) true name p s s.generalListeners
            = (s1, tr1, h1))
    (hE : emitDispatch env (fuel + 1) s name p = (sf, tr)) :
    ∀ inv ∈ tr,
      (inv.general = true → inv.listener ∈ s.generalListeners) ∧
      (inv.general = false →
        inv.listener ∈ (alookup s1.eventListeners name).getD []) := by
  rcases hN : runList env (emitDispatch env fuel) false name p s1
      ((alookup s1.eventListeners name).getD []) with ⟨s2, tr2, h2⟩
  rw [emitDispatch_succ_eq env fuel s name p s1 s2 tr1 tr2 h1 h2 hG hN] at hE
  have hmem1 := runList_mem env (emitDispatch env fuel) true name p hEnv
    s.generalListeners s s1 tr1 h1 hG
  have hmem2 := runList_mem env (emitDispatch env fuel) false name p hEnv
    ((alookup s1.eventListeners name).getD []) s1 s2 tr2 h2 hN
  cases h1 with
  | true =>
      simp only [if_true] at hE
      injection hE with e1 e2
      subst e2
      intro inv hinv
      obtain ⟨hl, hg, _, _⟩ := hmem1 inv hinv
      refine ⟨fun _ => hl, fun hgen => ?_⟩
      rw [hg] at hgen
      cases hgen
  | false =>
      simp only [Bool.false_eq_true, if_false] at hE
      injection hE with e1 e2
      subst e2
      intro inv hinv
      rcases List.mem_append.mp hinv with hinv1 | hinv2
      · obtain ⟨hl, hg, _, _⟩ := hmem1 inv hinv1
        refine ⟨fun _ => hl, fun hgen => ?_⟩
        rw [hg] at hgen
        cases hgen
      · obtain ⟨hl, hg, _, _⟩ := hmem2 inv hinv2
        refine ⟨fun hgen => ?_, fun _ => hl⟩
        rw [hg] at hgen
        cases hgen

/-- C1 witness: the amended theorem on a concrete dispatch with inert
listeners, evaluated at the name-phase invocation of listener `4`. -/
theorem invoked_listener_in_phase_snapshot_witness :
    ((⟨4, false, "x", 9, none⟩ : Invocation).general = true →
      (⟨4, false, "x", 9, none⟩ : Invocation).listener ∈ sSmall.generalListeners) ∧
    ((⟨4, false, "x", 9, none⟩ : Invocation).general = false →
      (⟨4, false, "x", 9, none⟩ : Invocation).listener
        ∈ (alookup sSmall.eventListeners "x").getD []) :=
  invoked_listener_in_phase_snapshot envInert 0 sSmall sSmall sSmall "x" 9
    [⟨3, true, "x", 9, none⟩] [⟨3, true, "x", 9, none⟩, ⟨4, false, "x", 9, none⟩]
    false (fun _ => rfl) (by decide) (by decide)
    ⟨4, false, "x", 9, none⟩ (by decide)

/-- C2: within one dispatch a listener returning the halt sentinel is the
last invocation of that dispatch (every invocation except possibly the
final one returned something other than `false`); and the halt has no
effect beyond control flow — listeners that do not touch the emitter
leave its state exactly as it was, so any earlier or later dispatch is
determined by the emitter state alone, unaffected by the halt. -/
theorem halt_sentinel_stops_current_dispatch (env : Env) (fuel : Nat)
    (s sf : EmitterState) (name : String) (p : Payload) (tr : List Invocation)
    (hEnv : ∀ l, (env l name p).emitFree = true)
    (hE : emitDispatch env (fuel + 1) s name p = (sf, tr)) :
    (∀ inv ∈ tr.dropLast, inv.ret ≠ some false) ∧
    ((∀ l, ∃ v, env l name p = Prog.ret v) → sf = s) := by
  rcases hG : runList env (emitDispatch env fuel) true name p s s.generalListeners
    with ⟨s1, tr1, h1⟩
  rcases hN : runList env (emitDispatch env fuel) false name p s1
      ((alookup s1.eventListeners name).getD []) with ⟨s2, tr2, h2⟩
  rw [emitDispatch_succ_eq env fuel s name p s1 s2 tr1 tr2 h1 h2 hG hN] at hE
  obtain ⟨m1, _, _, hdrop1, htrue1, hfalse1⟩ :=
    runList_spec env (emitDispatch env fuel) true name p hEnv _ s s1 tr1 h1 hG
  obtain ⟨m2, _, _, hdrop2, _, _⟩ :=
    runList_spec env (emitDispatch env fuel) false name p hEnv _ s1 s2 tr2 h2 hN
  cases h1 with
  | true =>
      simp only [if_true] at hE
      injection hE with e1 e2
      subst e1
      subst e2
      refine ⟨hdrop1, ?_⟩
      intro hPure
      have hst := runList_state_pure env (emitDispatch env fuel) true name p hPure
        s.generalListeners s
      rw [hG] at hst
      exact hst
  | false =>
      simp only [Bool.false_eq_true, if_false] at hE
      injection hE with e1 e2
      subst e1
      subst e2
      constructor
      · intro inv hinv
        rcases mem_dropLast_append tr1 tr2 inv hinv with hinv1 | hinv2
        · exact (hfalse1 rfl).2 inv hinv1
        · exact hdrop2 inv hinv2
      · intro hPure
        have hst1 := runList_state_pure env (emitDispatch env fuel) true name p hPure
          s.generalListeners s
        rw [hG] at hst1
        have hst2 := runList_state_pure env (emitDispatch env fuel) false name p hPure
          ((alookup s1.eventListeners name).getD []) s1
        rw [hN] at hst2
        simp only at hst1 hst2
        rw [hst2, hst1]

/-- C2 witness: a halting wildcard listener ends the dispatch at once and
leaves the emitter unchanged. -/
theorem halt_sentinel_stops_current_dispatch_witness :
    (∀ inv ∈ ([⟨3, true, "x", 2, some false⟩] : List Invocation).dropLast,
        inv.ret ≠ some false) ∧
    ((∀ l, ∃ v, envHalt l "x" 2 = Prog.ret v) → sSmall = sSmall) :=
  halt_sentinel_stops_current_dispatch envHalt 0 sSmall sSmall "x" 2
    [⟨3, true, "x", 2, some false⟩] (fun _ => rfl) (by decide)

/-- C3 counterexample: listener `0` is registered twice on `"e"`; during
its first call it removes itself (both registrations) with
`removeEventListener`, yet the dispatch-time snapshot still calls it a
second time in the same dispatch. -/
theorem self_removing_duplicate_listener_cex :
    listenersOf sSelfRemove "e" = [0, 0] ∧
    envSelfRemove 0 "e" 3 = Prog.remove "e" 0 (Prog.remove "e" 0 (Prog.ret none)) ∧
    listenersOf ((emitDispatch envSelfRemove 1 sSelfRemove "e" 3).1) "e" = [] ∧
    ((emitDispatch envSelfRemove 1 sSelfRemove "e" 3).2).countP
        (fun inv => inv.listener == 0) = 2 := by
  decide

/-- C3 (amended): in any dispatch, a listener is called through the
event's name-keyed list at most as many times as it occurs in that list
when the name-keyed phase starts, regardless of any removals performed
during the dispatch.  In particular a listener registered once is not
called again after removing itself; a listener registered several times is
still called once per snapshot occurrence even if it removes itself. -/
theorem name_phase_invocations_bounded_by_snapshot (env : Env) (fuel : Nat)
    (s s1 sf : EmitterState) (name : String) (p : Payload)
    (tr1 tr : List Invocation) (L : ListenerId)
    (hEnv : ∀ l, (env l name p).emitFree = true)
    (hG : runList env (emitDispatch env fuel) true name p s s.generalListeners
            = (s1, tr1, false))
    (hE : emitDispatch env (fuel + 1) s name p = (sf, tr)) :
    tr.countP (fun inv => inv.listener == L && !inv.general)
      ≤ ((alookup s1.eventListeners name).getD []).count L := by
  rcases hN : runList env (emitDispatch env fuel) false name p s1
      ((alookup s1.eventListeners name).getD []) with ⟨s2, tr2, h2⟩
  rw [emitDispatch_succ_eq env fuel s name p s1 s2 tr1 tr2 false h2 hG hN] at hE
  simp only [Bool.false_eq_true, if_false] at hE
  injection hE with e1 e2
  subst e2
  rw [List.countP_append]
  have hmem1 := runList_mem env (emitDispatch env fuel) true name p hEnv
    s.generalListeners s s1 tr1 false hG
  have h0 : tr1.countP (fun inv => inv.listener == L && !inv.general) = 0 := by
    rw [List.countP_eq_zero]
    intro inv hinv
    obtain ⟨_, hg, _, _⟩ := hmem1 inv hinv
    simp [hg]
  rw [h0, Nat.zero_add]
  obtain ⟨m, _, hmap2, _, _, _⟩ :=
    runList_spec env (emitDispatch env fuel) false name p hEnv _ s1 s2 tr2 h2 hN
  have hcnt : tr2.countP (fun inv => inv.listener == L && !inv.general)
      = (((alookup s1.eventListeners name).getD []).take m).countP (fun l => l == L) := by
    have hc1 : (tr2.map invKey).countP (fun k => k.1 == L && !k.2.1)
        = tr2.countP (fun inv => inv.listener == L && !inv.general) :=
      List.countP_map _ invKey tr2
    rw [← hc1, hmap2, List.countP_map]
    have : ((fun k : ListenerId × Bool × String × Payload => k.1 == L && !k.2.1) ∘
        (fun l : ListenerId => (l, false, name, p))) = fun l : ListenerId => l == L := by
      funext l
      simp
    rw [this]
  rw [hcnt, List.count_eq_countP]
  exact (List.take_sublist m _).countP_le _

/-- C3 witness: the amended bound on a concrete dispatch. -/
theorem name_phase_invocations_bounded_by_snapshot_witness :
    ([(⟨3, true, "x", 2, none⟩ : Invocation), ⟨4, false, "x", 2, none⟩]).countP
        (fun inv => inv.listener == 4 && !inv.general)
      ≤ ((alookup sSmall.eventListeners "x").getD []).count 4 :=
  name_phase_invocations_bounded_by_snapshot envInert 0 sSmall sSmall sSmall "x" 2
    [⟨3, true, "x", 2, none⟩]
    [⟨3, true, "x", 2, none⟩, ⟨4, false, "x", 2, none⟩] 4
    (fun _ => rfl) (by decide) (by decide)

/-- C5: the wildcard phase of a dispatch serves a prefix of the
dispatch-time wildcard snapshot, each listener receiving the pair
`(eventName, payload)`; the prefix is the whole snapshot unless some
earlier wildcard listener returned the halt sentinel, in which case the
last served invocation is the one that returned it. -/
theorem wildcard_listeners_receive_name_and_payload (env : Env) (fuel : Nat)
    (s s1 sf : EmitterState) (name : String) (p : Payload)
    (tr1 tr : List Invocation) (h1 : Bool)
    (hEnv : ∀ l, (env l name p).emitFree = true)
    (hG : runList env (emitDispatch env fuel) true name p s s.generalListeners
            = (s1, tr1, h1))
    (hE : emitDispatch env (fuel + 1) s name p = (sf, tr)) :
    ∃ m tr2, m ≤ s.generalListeners.length ∧ tr = tr1 ++ tr2 ∧
      tr1.map invKey
        = (s.generalListeners.take m).map (fun l => (l, true, name, p)) ∧
      (h1 = false → m = s.generalListeners.length) ∧
      (h1 = true → ∃ last, tr1.getLast? = some last ∧ last.ret = some false) := by
  rcases hN : runList env (emitDispatch env fuel) false name p s1
      ((alookup s1.eventListeners name).getD []) with ⟨s2, tr2, h2⟩
  rw [emitDispatch_succ_eq env fuel s name p s1 s2 tr1 tr2 h1 h2 hG hN] at hE
  obtain ⟨m, hm, hmap, _, htrue, hfalse⟩ :=
    runList_spec env (emitDispatch env fuel) true name p hEnv _ s s1 tr1 h1 hG
  cases h1 with
  | true =>
      simp only [if_true] at hE
      injection hE with e1 e2
      subst e2
      refine ⟨m, [], hm, by simp, hmap, ?_, htrue⟩
      intro hcontra
      cases hcontra
  | false =>
      simp only [Bool.false_eq_true, if_false] at hE
      injection hE with e1 e2
      subst e2
      refine ⟨m, tr2, hm, rfl, hmap, fun _ => (hfalse rfl).1, ?_⟩
      intro hcontra
      cases hcontra

/-- C5 witness: a concrete dispatch serving the whole wildcard snapshot. -/
theorem wildcard_listeners_receive_name_and_payload_witness :
    ∃ m tr2, m ≤ sSmall.generalListeners.length ∧
      ([(⟨3, true, "x", 2, none⟩ : Invocation), ⟨4, false, "x", 2, none⟩]
        = [⟨3, true, "x", 2, none⟩] ++ tr2) ∧
      ([(⟨3, true, "x", 2, none⟩ : Invocation)]).map invKey
        = (sSmall.generalListeners.take m).map (fun l => (l, true, "x", 2)) ∧
      (false = false → m = sSmall.generalListeners.length) ∧
      (false = true → ∃ last,
        ([(⟨3, true, "x", 2, none⟩ : Invocation)]).getLast? = some last ∧
        last.ret = some false) :=
  wildcard_listeners_receive_name_and_payload envInert 0 sSmall sSmall sSmall
    "x" 2 [⟨3, true, "x", 2, none⟩]
    [⟨3, true, "x", 2, none⟩, ⟨4, false, "x", 2, none⟩] false
    (fun _ => rfl) (by decide) (by decide)

/-- C4: the address of the failing input.  Listener `0` and then a
one-time wrapper (listener `1`, installed by `addOneTimeEventListener`)
are registered on `"e"`; listener `0` removes itself and re-emits `"e"`
from inside the dispatch.  The nested dispatch invokes the wrapper (which
removes itself), and the outer dispatch's snapshot then invokes it a
second time: the one-time registration fires twice, although the method's
own documentation promises "the listener will be called only once". -/
theorem one_time_listener_fires_twice_under_nested_emit :
    listenersOf sNestedEmit "e" = [0, 1] ∧
    envNestedEmit 1 "e" 7 = oneTimeBody "e" 1 (Prog.ret none) ∧
    ((emitDispatch envNestedEmit 2 sNestedEmit "e" 7).2).countP
        (fun inv => inv.listener == 1) = 2 := by
  decide
